import Mathlib

/-! Verification development for the kala CPU-VDF streamer
    (`src/vdf/src/c_bindings/streamer.cpp`).

    The file embeds, at the byte level, the serialization and parsing of
    Wesolowski proof blobs, the placeholder hash and Fiat–Shamir challenge
    derivation, the discriminant import, the worker thread's checkpoint
    recording, and the C API entry points, and proves properties of them.

    Machine integers are modelled as `Nat`/`Int` with explicit truncation
    (`&&& 255`, `% 256`) where the C code truncates.  Byte strings are
    `List Nat` with entries below 256.  The class-group primitives
    (`square`, `FastPowFormNucomp`, `operator*`, `generate_discriminant`)
    are implemented in `vdf.h`, which is not part of the tree; the
    development is therefore parameterized over them (`VdfOps`), and the
    few form-level facts the spec pins down (`generator`, `check_valid`)
    are modelled from the spec. -/

/-- Fuel-driven big-endian magnitude export; `beBytes` instantiates the
fuel so that it never runs out. -/
def beBytesGo : Nat → Nat → List Nat
  | 0, _ => []
  | fuel + 1, n => if n = 0 then [] else beBytesGo fuel (n / 256) ++ [n % 256]

/-- `mpz_export` with order 1, size 1 (as used throughout streamer.cpp):
big-endian bytes of the unsigned magnitude, empty for zero.  The code's
`mpz_sizeinbase(.., 256) + 1` over-allocation is immaterial because the
actual written count reported by `mpz_export` is used everywhere. -/
def beBytes (n : Nat) : List Nat := beBytesGo n n

/-- `mpz_import` / the verifier's shift-or accumulation of big-endian
bytes into an unsigned integer. -/
def beRead (l : List Nat) : Nat := l.foldl (fun acc b => (acc <<< 8) ||| b) 0

/-- The 8-byte big-endian encoding of a 64-bit counter:
`(x >> (i*8)) & 0xFF` for `i = 7 .. 0`. -/
def be8 (t : Nat) : List Nat :=
  [t >>> 56 &&& 255, t >>> 48 &&& 255, t >>> 40 &&& 255, t >>> 32 &&& 255,
   t >>> 24 &&& 255, t >>> 16 &&& 255, t >>> 8 &&& 255, t >>> 0 &&& 255]

/-- One-bit left rotation on an 8-bit value, as in the placeholder hash:
`h = (h << 1) | (h >> 7)` stored back into a `uint8_t`. -/
def rot8 (h : Nat) : Nat := ((h <<< 1) ||| (h >>> 7)) % 256

/-- One absorption step of digest byte `i` of the placeholder hash:
`h ^= data[j] + i + j` (truncated to 8 bits) followed by the rotation. -/
def hashAbsorb (i h j d : Nat) : Nat := rot8 ((h ^^^ (d + i + j)) % 256)

/-- Digest byte `i` of the repository's deterministic pseudo-hash
(`sha256` in streamer.cpp): start from `h = i` and absorb every data byte. -/
def sha256Byte (data : List Nat) (i : Nat) : Nat :=
  (data.enum.foldl (fun h p => hashAbsorb i h p.1 p.2) (i % 256))

/-- The repository's 32-byte placeholder hash (`sha256` in streamer.cpp). -/
def sha256 (data : List Nat) : List Nat := (List.range 32).map (sha256Byte data)

/-- The odd starting point used by `NextPrime`: add one if even. -/
def oddify (n : Nat) : Nat := if n % 2 = 0 then n + 1 else n

/-- `NextPrime` from streamer.cpp: make the start odd, then step by 2 until
the 25-round Miller–Rabin test passes (modelled as true primality). -/
def nextPrime (n : Nat) : Nat :=
  oddify n + 2 * Nat.find (show ∃ k, Nat.Prime (oddify n + 2 * k) by
    obtain ⟨p, hle, hp⟩ := Nat.exists_infinite_primes (max (oddify n) 3)
    have h3 : 3 ≤ p := le_trans (le_max_right _ _) hle
    have hop : oddify n ≤ p := le_trans (le_max_left _ _) hle
    have hodd : p % 2 = 1 := Nat.odd_iff.mp (hp.odd_of_ne_two (by omega))
    have ho : oddify n % 2 = 1 := by unfold oddify; split <;> omega
    refine ⟨(p - oddify n) / 2, ?_⟩
    have heq : oddify n + 2 * ((p - oddify n) / 2) = p := by omega
    rw [heq]
    exact hp)

/-- Binary quadratic form (a, b, c); GMP integers are modelled as `Int`. -/
structure form where
  a : Int
  b : Int
  c : Int
deriving DecidableEq

/-- Modelled from the spec: `form::check_valid` (vdf.h, absent from the
tree) per §4.C: `b²−4ac = D ∧ a > 0 ∧ c > 0`. -/
def check_valid (f : form) (D : Int) : Bool :=
  decide (f.b ^ 2 - 4 * f.a * f.c = D ∧ 0 < f.a ∧ 0 < f.c)

/-- Modelled from the spec: `form::generator(D)` (vdf.h, absent from the
tree): the principal form, the unique reduced form with a = 1, b = 1. -/
def generator (D : Int) : form := ⟨1, 1, (1 - D) / 4⟩

/-- Modelled from the spec: the class-group primitives implemented in the
absent vdf.h — NUDUPL squaring (`square`), `FastPowFormNucomp` (form, D,
exponent; the reduction bound L and the shared reducer are performance
parameters with no observable effect), NUCOMP composition (`operator*`),
and `generate_discriminant` (bit size, seed).  The spec fixes only their
contracts, so the development is parameterized over them and every theorem
holds for an arbitrary implementation. -/
structure VdfOps where
  square : form → form
  fastPow : form → Int → Nat → form
  compose : form → form → form
  genDisc : Nat → Int → Int

/-- A concrete (degenerate) instantiation of the class-group parameters,
used only to state closed concrete facts whose truth does not depend on
the class-group arithmetic. -/
def trivOps : VdfOps :=
  { square := id
    fastPow := fun f _ _ => f
    compose := fun f _ => f
    genDisc := fun _ _ => -7 }

/-- The form serialization fed to the Fiat–Shamir hash (`serialize_form`
in streamer.cpp): unsigned magnitudes of a, b, c, concatenated with no
length prefixes. -/
def serFormMag (f : form) : List Nat :=
  beBytes f.a.natAbs ++ beBytes f.b.natAbs ++ beBytes f.c.natAbs

/-- The challenge data hashed for the Fiat–Shamir prime: |D|, x, y, and
the iteration count as 8 big-endian bytes (identical in
`generate_checkpoint_proof` and `cpu_vdf_generate_proof`). -/
def challengeData (D : Int) (x y : form) (t : Nat) : List Nat :=
  beBytes D.natAbs ++ serFormMag x ++ serFormMag y ++ be8 t

/-- The Fiat–Shamir challenge prime: import the 32-byte digest, set bit
263 (`mpz_setbit`), and take the next prime. -/
def fiatShamirL (D : Int) (x y : form) (t : Nat) : Nat :=
  nextPrime (beRead (sha256 (challengeData D x y t)) ||| 2 ^ 263)

/-- `add_integer` in cpu_vdf_generate_proof / `add_form` in
generate_checkpoint_proof: a 2-byte big-endian length prefix followed by
the unsigned magnitude bytes. -/
def serInt2 (v : Int) : List Nat :=
  ((beBytes v.natAbs).length >>> 8 &&& 255) ::
    ((beBytes v.natAbs).length &&& 255) :: beBytes v.natAbs

/-- `add_form`: the three coefficients, each with a 2-byte length prefix. -/
def serForm2 (f : form) : List Nat := serInt2 f.a ++ serInt2 f.b ++ serInt2 f.c

/-- The version-0x02 proof blob emitted by cpu_vdf_generate_proof:
version, recursion level, 8-byte iteration count, 1-byte length of the
challenge prime plus its magnitude, then the proof form with 2-byte
length prefixes. -/
def serializeProof (T rl l : Nat) (pf : form) : List Nat :=
  2 :: rl :: be8 T
    ++ ((beBytes l).length &&& 255) :: beBytes l
    ++ serInt2 pf.a ++ serInt2 pf.b ++ serInt2 pf.c

/-- The streaming checkpoint record produced by
`generate_checkpoint_proof` (its `iteration` field holds the `iterations`
argument until the caller overwrites it with the absolute iteration). -/
structure CheckpointProof where
  iteration : Nat
  checkpoint_form : form
  proof_form : form
  challenge_prime : Nat
  serialized_proof : List Nat
deriving DecidableEq

/-- `generate_checkpoint_proof` (streamer.cpp): Fiat–Shamir the segment
(start form, end form, iteration count), compute `π = start^(2^Δt / l)`,
and serialize the version-0x03 blob: version byte, the 8-byte iteration
count it was handed, the checkpoint form, the proof form, and the
challenge prime with a 1-byte length. -/
def generate_checkpoint_proof (ops : VdfOps) (start_form end_form : form)
    (iterations : Nat) (discriminant : Int) : CheckpointProof :=
  let l := fiatShamirL discriminant start_form end_form iterations
  let q := 2 ^ iterations / l
  let pf := ops.fastPow start_form discriminant q
  { iteration := iterations
    checkpoint_form := end_form
    proof_form := pf
    challenge_prime := l
    serialized_proof :=
      3 :: be8 iterations
        ++ serForm2 end_form ++ serForm2 pf
        ++ ((beBytes l).length &&& 255) :: beBytes l }

/-- The error codes of the C API that the modelled entry points return. -/
inductive VdfError where
  | invalidParameters
  | invalidDiscriminant
  | invalidForm
  | computationFailed
  | proofGenerationFailed
  | memoryAllocation
deriving DecidableEq

/-- The discriminant value computed by
cpu_vdf_start_computation_with_discriminant before its final sign check:
the imported magnitude is negated, and when the (non-negative,
`mpz_mod_ui`) residue mod 4 is not 1 the value is adjusted by subtracting
the residue and adding 1, then stepping down by 4 if that made it
strictly positive (`mpz_sgn > 0`). -/
def adjustedDiscriminant (m : Nat) : Int :=
  let d0 : Int := -(m : Int)
  let md := d0 % 4
  if md ≠ 1 then
    let d' := d0 - md + 1
    if 0 < d' then d' - 4 else d'
  else d0

/-- Discriminant import in cpu_vdf_start_computation_with_discriminant:
adjust, then reject any non-negative result (`mpz_sgn >= 0`). -/
def importDiscriminant (m : Nat) : Except VdfError Int :=
  if adjustedDiscriminant m < 0 then Except.ok (adjustedDiscriminant m)
  else Except.error VdfError.invalidDiscriminant

/-- The adjustment exactly as the specification words it: subtract
(D mod 4), add 1, then subtract 4 if the adjustment made the value
NON-NEGATIVE.  Stated over the already-negated import for comparison
with `adjustedDiscriminant`. -/
def specAdjustedDisc (D : Int) : Int :=
  if D % 4 ≠ 1 then
    let d' := D - D % 4 + 1
    if 0 ≤ d' then d' - 4 else d'
  else D

/-- The initial-form setup in cpu_vdf_start_computation: both the
provided-bytes branch and the null branch install the generator — the
provided bytes are never parsed. -/
def startInitialForm (D : Int) (initial_form_bytes : Option (List Nat)) : form :=
  match initial_form_bytes with
  | some _ => generator D
  | none => generator D

/-- The initial-form handling in cpu_vdf_verify_proof: `x` is set to the
generator and the provided bytes are left unparsed. -/
def verifyInitialForm (D : Int) (initial_form_bytes : Option (List Nat)) : form :=
  match initial_form_bytes with
  | some _ => generator D
  | none => generator D

/-- Bounds-checked read of `n` bytes (the `ptr + n > end` guards in
cpu_vdf_verify_proof): the bytes read and the unread remainder. -/
def readBytes (n : Nat) (l : List Nat) : Option (List Nat × List Nat) :=
  if n ≤ l.length then some (l.take n, l.drop n) else none

/-- The verifier's 2-byte size accumulation: `size = (b0 << 8); size |= b1`. -/
def sz2 : List Nat → Nat
  | [b0, b1] => (b0 <<< 8) ||| b1
  | _ => 0

/-- The single byte of a 1-byte read. -/
def byte1 : List Nat → Nat
  | [b] => b
  | _ => 0

/-- `read_integer` in cpu_vdf_verify_proof: a 2-byte length, then that
many magnitude bytes, imported as an unsigned integer. -/
def readInt2 (l : List Nat) : Option (Nat × List Nat) :=
  (readBytes 2 l).bind fun sr =>
    (readBytes (sz2 sr.1) sr.2).bind fun br =>
      some (beRead br.1, br.2)

/-- Final parsing stage: assemble the challenge prime and the proof form
(coefficients re-imported as unsigned magnitudes). -/
def pDone (l a b : Nat) (c : Nat) (r : List Nat) :
    Option ((Nat × form) × List Nat) :=
  some ((l, ⟨(a : Int), (b : Int), (c : Int)⟩), r)

/-- Parsing stage after the second coefficient: read the third. -/
def pAfterB (l a : Nat) (b : Nat) (r : List Nat) :
    Option ((Nat × form) × List Nat) :=
  (readInt2 r).bind fun cr => pDone l a b cr.1 cr.2

/-- Parsing stage after the first coefficient: read the second. -/
def pAfterA (l : Nat) (a : Nat) (r : List Nat) :
    Option ((Nat × form) × List Nat) :=
  (readInt2 r).bind fun br => pAfterB l a br.1 br.2

/-- Parsing stage after the challenge-prime bytes: import the prime and
read the first coefficient. -/
def pAfterLBytes (lbs : List Nat) (r : List Nat) :
    Option ((Nat × form) × List Nat) :=
  (readInt2 r).bind fun ar => pAfterA (beRead lbs) ar.1 ar.2

/-- Parsing stage after the 1-byte prime length: read that many bytes. -/
def pAfterLsize (ls : List Nat) (r : List Nat) :
    Option ((Nat × form) × List Nat) :=
  (readBytes (byte1 ls) r).bind fun lb => pAfterLBytes lb.1 lb.2

/-- Parsing stage after the 8 iteration bytes: check the claimed count,
then read the challenge-prime length. -/
def pAfterIters (T : Nat) (tb : List Nat) (r : List Nat) :
    Option ((Nat × form) × List Nat) :=
  if beRead tb = T then
    (readBytes 1 r).bind fun lr => pAfterLsize lr.1 lr.2
  else none

/-- Parsing stage after the recursion byte: check the claimed level, then
read the 8 iteration bytes. -/
def pAfterRecur (rl T : Nat) (rb : List Nat) (r : List Nat) :
    Option ((Nat × form) × List Nat) :=
  if byte1 rb = rl then
    (readBytes 8 r).bind fun tr => pAfterIters T tr.1 tr.2
  else none

/-- Parsing stage after the version byte: check it is 0x02, then read the
recursion byte. -/
def pAfterVersion (rl T : Nat) (v : List Nat) (r : List Nat) :
    Option ((Nat × form) × List Nat) :=
  if byte1 v = 2 then
    (readBytes 1 r).bind fun rr => pAfterRecur rl T rr.1 rr.2
  else none

/-- The parsing phase of cpu_vdf_verify_proof: version byte (must be 2),
recursion byte (must equal the claimed level), 8-byte iteration count
(must equal the claimed count), challenge prime with 1-byte length, and
the three proof-form coefficients; trailing bytes are left unread. -/
def parseProof (rl T : Nat) (blob : List Nat) : Option ((Nat × form) × List Nat) :=
  (readBytes 1 blob).bind fun vr => pAfterVersion rl T vr.1 vr.2

/-- The Wesolowski-equation phase of cpu_vdf_verify_proof, applied to the
parsed challenge prime and proof form: validate the form, recompute
`y = x^(2^T)` by `T` sequential squarings, set `r = 2^T mod l`, and
compare `π^l · x^r` with `y` coordinate-wise. -/
def wesolowskiCheck (ops : VdfOps) (D : Int) (x : form) (T l : Nat) (pf : form) : Bool :=
  if check_valid pf D then
    let y := ops.square^[T] x
    let lhs := ops.compose (ops.fastPow pf D l) (ops.fastPow x D (2 ^ T % l))
    decide (lhs = y)
  else false

/-- cpu_vdf_verify_proof: reject blobs shorter than the 10-byte header,
parse, import |D| from the bytes and negate it, ignore the provided
initial form in favour of the generator, and run the Wesolowski check
with the challenge prime taken from the blob. -/
def cpu_vdf_verify_proof (ops : VdfOps) (discriminant_bytes : List Nat)
    (initial_form_bytes : Option (List Nat)) (blob : List Nat)
    (iterations rl : Nat) : Bool :=
  if blob.length < 10 then false
  else
    match parseProof rl iterations blob with
    | none => false
    | some ((l, pf), _) =>
      let D := -(beRead discriminant_bytes : Int)
      wesolowskiCheck ops D (verifyInitialForm D initial_form_bytes) iterations l pf

/-- The engine states of the C API. -/
inductive VdfState where
  | idle
  | computing
  | completed
  | error
  | stopped
deriving DecidableEq

/-- The deterministic fields of `cpu_vdf_context` that the modelled entry
points read. -/
structure VdfCtx where
  state : VdfState
  target_iterations : Nat
  discriminant : Int
  initial_form : form
  final_form : form
  current_iteration : Nat
  iterations_per_second : Nat
deriving DecidableEq

/-- The proof output structure filled by cpu_vdf_generate_proof. -/
structure ProofOut where
  data : List Nat
  length : Nat
  iterations : Nat
  is_valid : Bool
  recursion_level : Nat
deriving DecidableEq

/-- cpu_vdf_generate_proof: requires the Completed state, derives the
Fiat–Shamir prime from (D, x, y, T), computes `π = x^(2^T / l)`, and
serializes the version-0x02 blob. -/
def cpu_vdf_generate_proof (ops : VdfOps) (ctx : VdfCtx) (recursion_level : Nat) :
    Except VdfError ProofOut :=
  if ctx.state ≠ VdfState.completed then Except.error VdfError.computationFailed
  else
    let T := ctx.target_iterations
    let l := fiatShamirL ctx.discriminant ctx.initial_form ctx.final_form T
    let q := 2 ^ T / l
    let pf := ops.fastPow ctx.initial_form ctx.discriminant q
    let data := serializeProof T recursion_level l pf
    Except.ok
      { data := data
        length := data.length
        iterations := T
        is_valid := true
        recursion_level := recursion_level }

/-- cpu_vdf_generate_proof_for_iterations: validates
`target_iterations ≤ T` and otherwise delegates unchanged to
cpu_vdf_generate_proof for the full run. -/
def cpu_vdf_generate_proof_for_iterations (ops : VdfOps) (ctx : VdfCtx)
    (target_iterations recursion_level : Nat) : Except VdfError ProofOut :=
  if ctx.target_iterations < target_iterations then
    Except.error VdfError.invalidParameters
  else cpu_vdf_generate_proof ops ctx recursion_level

/-- The status structure filled by cpu_vdf_get_status; the `double`
percentage is modelled as an exact rational and the wall-clock elapsed
time is supplied by the environment. -/
structure VdfStatus where
  current_iteration : Nat
  target_iterations : Nat
  state : VdfState
  progress_percentage : ℚ
  iterations_per_second : Nat
  elapsed_time_ms : Nat
  has_proof_ready : Bool

/-- cpu_vdf_get_status: copy the counters and state, compute the
percentage, and unconditionally report `has_proof_ready = false`. -/
def cpu_vdf_get_status (ctx : VdfCtx) (now_elapsed_ms : Nat) : VdfStatus :=
  { current_iteration := ctx.current_iteration
    target_iterations := ctx.target_iterations
    state := ctx.state
    progress_percentage :=
      if 0 < ctx.target_iterations then
        (ctx.current_iteration : ℚ) / (ctx.target_iterations : ℚ) * 100
      else 0
    iterations_per_second := ctx.iterations_per_second
    has_proof_ready := false
    elapsed_time_ms := if ctx.state ≠ VdfState.idle then now_elapsed_ms else 0 }

/-- The worker-local state of `vdf_computation_thread`: the current form,
the last checkpoint form and its iteration, and the recorded checkpoint
list. -/
structure WorkerSt where
  current : form
  last_checkpoint : form
  last_checkpoint_iter : Nat
  checkpoint_proofs : List CheckpointProof
deriving DecidableEq

/-- The worker state before the squaring loop: when checkpoints are
stored, the target is positive and streaming proofs are enabled, the
sentinel version-0x04 record for iteration 0 is pushed (its forms are the
default-constructed zeros of `CheckpointProof()` except the checkpoint
form, which is the initial form). -/
def workerInit (f0 : form) (store streaming : Bool) (T : Nat) : WorkerSt :=
  { current := f0
    last_checkpoint := f0
    last_checkpoint_iter := 0
    checkpoint_proofs :=
      if store = true ∧ 0 < T ∧ streaming = true then
        [{ iteration := 0
           checkpoint_form := f0
           proof_form := ⟨0, 0, 0⟩
           challenge_prime := 0
           serialized_proof := [4] }]
      else [] }

/-- One iteration of the worker's inner loop at iteration number `t`
(`current_iter` in the code): square, then, at a checkpoint boundary
(`t` divisible by the interval, or `t = T`), either record a streaming
segment proof over `t - last_checkpoint_iter` iterations (overwriting the
record's iteration field with the absolute `t`) or record the bare form. -/
def workerStep (ops : VdfOps) (D : Int) (store : Bool) (k : Nat)
    (streaming : Bool) (T : Nat) (st : WorkerSt) (t : Nat) : WorkerSt :=
  let cur := ops.square st.current
  if store = true ∧ 0 < k ∧ (t % k = 0 ∨ t = T) then
    if streaming = true then
      let cp := generate_checkpoint_proof ops st.last_checkpoint cur
        (t - st.last_checkpoint_iter) D
      { current := cur
        last_checkpoint := cur
        last_checkpoint_iter := t
        checkpoint_proofs := st.checkpoint_proofs ++ [{ cp with iteration := t }] }
    else
      { current := cur
        last_checkpoint := st.last_checkpoint
        last_checkpoint_iter := st.last_checkpoint_iter
        checkpoint_proofs := st.checkpoint_proofs ++
          [{ iteration := t
             checkpoint_form := cur
             proof_form := ⟨0, 0, 0⟩
             challenge_prime := 0
             serialized_proof := [] }] }
  else
    { st with current := cur }

/-- The worker state after completing iterations `1 .. t` of an
uncancelled run with target `T`. -/
def workerAt (ops : VdfOps) (D : Int) (f0 : form) (store : Bool) (k : Nat)
    (streaming : Bool) (T t : Nat) : WorkerSt :=
  (List.range' 1 t).foldl (workerStep ops D store k streaming T)
    (workerInit f0 store streaming T)

/-- The checkpoint interval computed by the worker: `segment_size` when
positive, else the 65536 default; only set when checkpoints are stored
and the target is positive. -/
def checkpointInterval (store : Bool) (segment T : Nat) : Nat :=
  if store = true ∧ 0 < T then (if 0 < segment then segment else 65536) else 0

/-- The first four challenge bytes taken big-endian as a signed 32-bit
seed (cpu_vdf_start_computation). -/
def seedOfChallenge (challenge : List Nat) : Int :=
  let s := beRead (challenge.take 4)
  if s < 2 ^ 31 then (s : Int) else (s : Int) - 2 ^ 32

/-- The checkpoint list of a completed, uncancelled run started by
cpu_vdf_start_computation: derive D from the challenge, use the
generator as initial form, enable checkpoint storage and streaming
proofs iff `segment_size > 0`, and run the worker to `T`. -/
def startComputationCheckpoints (ops : VdfOps) (challenge : List Nat)
    (disc_bits segment T : Nat) : List CheckpointProof :=
  let D := ops.genDisc disc_bits (seedOfChallenge challenge)
  let store := decide (0 < segment)
  (workerAt ops D (generator D) store (checkpointInterval store segment T)
    store T T).checkpoint_proofs

/-- The checkpoint list of a completed, uncancelled run started by
cpu_vdf_start_computation_with_discriminant on a fresh context: import D,
use the generator as initial form, enable checkpoint storage iff
`segment_size > 0`, and leave `generate_streaming_proofs` at its default
`false` (the function never sets it). -/
def startWithDiscCheckpoints (ops : VdfOps) (m : Nat) (segment T : Nat) :
    Option (List CheckpointProof) :=
  match importDiscriminant m with
  | Except.error _ => none
  | Except.ok D =>
    let store := decide (0 < segment)
    some (workerAt ops D (generator D) store (checkpointInterval store segment T)
      false T T).checkpoint_proofs

/-- cpu_vdf_get_checkpoint_proofs: walk the stored list, keep the records
whose iteration lies in `[start_iteration, end_iteration]`, and stop once
the caller's capacity is reached. -/
def cpu_vdf_get_checkpoint_proofs (cps : List CheckpointProof)
    (start_iteration end_iteration max_proofs : Nat) : List CheckpointProof :=
  ((cps.filter fun cp =>
    decide (start_iteration ≤ cp.iteration ∧ cp.iteration ≤ end_iteration)).take
      max_proofs)

/-- A byte-level parser consumes a determined count of leading bytes: on
success the remainder is the corresponding suffix of the input, and the
parser fails on every cut of the input shorter than what it consumed —
it never returns a partial result. -/
def Consuming {α : Type} (p : List Nat → Option (α × List Nat)) : Prop :=
  ∀ l a r, p l = some (a, r) →
    ∃ c, c + r.length = l.length ∧ r = l.drop c ∧
      ∀ k, (k < c → p (l.take k) = none) ∧
           (c ≤ k → p (l.take k) = some (a, r.take (k - c)))

theorem be8_length (t : Nat) : (be8 t).length = 8 := rfl

theorem and255_eq_mod (x : Nat) : x &&& 255 = x % 256 := by
  have h := Nat.and_pow_two_sub_one_eq_mod x 8
  norm_num at h
  exact h

/-- Bitwise-or of a byte into an 8-bit-shifted value is plain addition. -/
theorem shiftLeft8_lor_eq_add (a b : Nat) (hb : b < 256) :
    (a <<< 8) ||| b = a * 256 + b := by
  apply Nat.eq_of_testBit_eq
  intro i
  rw [Nat.testBit_lor, Nat.testBit_shiftLeft]
  rcases Nat.lt_or_ge i 8 with h8 | h8
  · have hd : decide (8 ≤ i) = false := by simp; omega
    rw [hd]
    simp only [Bool.false_and, Bool.false_or]
    rw [Nat.testBit_to_div_mod, Nat.testBit_to_div_mod]
    have hsplit : a * 256 + b = b + a * 2 ^ (7 - i) * 2 * 2 ^ i := by
      have h2 : 2 ^ (7 - i) * 2 * 2 ^ i = 256 := by
        rw [Nat.mul_assoc, Nat.mul_comm 2 (2 ^ i), ← Nat.pow_succ, ← Nat.pow_add]
        have : 7 - i + (i + 1) = 8 := by omega
        rw [this]
      rw [← h2]; ring
    rw [hsplit, Nat.add_mul_div_right _ _ (Nat.pos_pow_of_pos i (by norm_num))]
    have : (b / 2 ^ i + a * 2 ^ (7 - i) * 2) % 2 = b / 2 ^ i % 2 := by omega
    rw [this]
  · have hd : decide (8 ≤ i) = true := by simp; omega
    rw [hd]
    simp only [Bool.true_and]
    have hbz : b.testBit i = false := by
      apply Nat.testBit_lt_two_pow
      calc b < 256 := hb
        _ = 2 ^ 8 := by norm_num
        _ ≤ 2 ^ i := Nat.pow_le_pow_right (by norm_num) h8
    rw [hbz, Bool.or_false]
    rw [Nat.testBit_to_div_mod, Nat.testBit_to_div_mod]
    have hpow : (2 : Nat) ^ i = 2 ^ 8 * 2 ^ (i - 8) := by
      rw [← Nat.pow_add]; congr 1; omega
    rw [hpow, ← Nat.div_div_eq_div_mul]
    have h256 : (2 : Nat) ^ 8 = 256 := by norm_num
    have : (a * 256 + b) / 2 ^ 8 = a := by
      rw [h256, Nat.mul_comm a 256, Nat.mul_add_div (by norm_num)]
      omega
    rw [this]

theorem beRead_concat (l : List Nat) (b : Nat) :
    beRead (l ++ [b]) = (beRead l <<< 8) ||| b := by
  simp [beRead, List.foldl_append]

theorem beBytesGo_zero (fuel : Nat) : beBytesGo fuel 0 = [] := by
  cases fuel <;> simp [beBytesGo]

theorem beBytesGo_fuel :
    ∀ f1 f2 n : Nat, n ≤ f1 → n ≤ f2 → beBytesGo f1 n = beBytesGo f2 n := by
  intro f1
  induction f1 with
  | zero =>
    intro f2 n h1 _
    have : n = 0 := by omega
    subst this
    rw [beBytesGo_zero, beBytesGo_zero]
  | succ f ih =>
    intro f2 n h1 h2
    by_cases hn : n = 0
    · subst hn; rw [beBytesGo_zero, beBytesGo_zero]
    · cases f2 with
      | zero => omega
      | succ f2' =>
        simp only [beBytesGo, if_neg hn]
        have hdiv : n / 256 < n := Nat.div_lt_self (by omega) (by norm_num)
        rw [ih f2' (n / 256) (by omega) (by omega)]

/-- The recursion equation for `beBytes`. -/
theorem beBytes_eq (n : Nat) :
    beBytes n = if n = 0 then [] else beBytes (n / 256) ++ [n % 256] := by
  unfold beBytes
  cases n with
  | zero => simp [beBytesGo_zero]
  | succ m =>
    simp only [beBytesGo, Nat.succ_ne_zero, if_false, if_neg (Nat.succ_ne_zero m)]
    have hdiv : (m + 1) / 256 < m + 1 := Nat.div_lt_self (by omega) (by norm_num)
    rw [beBytesGo_fuel m ((m + 1) / 256) ((m + 1) / 256) (by omega) (le_refl _)]

/-- Round trip: importing the exported magnitude returns the value. -/
theorem beRead_beBytes (n : Nat) : beRead (beBytes n) = n := by
  induction n using Nat.strong_induction_on with
  | _ n ih =>
    rw [beBytes_eq]
    by_cases hn : n = 0
    · subst hn; simp [beRead]
    · rw [if_neg hn, beRead_concat,
        shiftLeft8_lor_eq_add _ _ (Nat.mod_lt _ (by norm_num)),
        ih (n / 256) (Nat.div_lt_self (by omega) (by norm_num))]
      omega

/-- Round trip for 8-byte counters below 2^64. -/
theorem beRead_be8 (t : Nat) (h : t < 2 ^ 64) : beRead (be8 t) = t := by
  simp only [beRead, be8, List.foldl, and255_eq_mod]
  rw [shiftLeft8_lor_eq_add _ _ (Nat.mod_lt _ (by norm_num)),
    shiftLeft8_lor_eq_add _ _ (Nat.mod_lt _ (by norm_num)),
    shiftLeft8_lor_eq_add _ _ (Nat.mod_lt _ (by norm_num)),
    shiftLeft8_lor_eq_add _ _ (Nat.mod_lt _ (by norm_num)),
    shiftLeft8_lor_eq_add _ _ (Nat.mod_lt _ (by norm_num)),
    shiftLeft8_lor_eq_add _ _ (Nat.mod_lt _ (by norm_num)),
    shiftLeft8_lor_eq_add _ _ (Nat.mod_lt _ (by norm_num)),
    shiftLeft8_lor_eq_add _ _ (Nat.mod_lt _ (by norm_num))]
  simp only [Nat.shiftRight_eq_div_pow]
  norm_num
  omega

theorem oddify_odd (n : Nat) : oddify n % 2 = 1 := by
  unfold oddify; split <;> omega

theorem le_oddify (n : Nat) : n ≤ oddify n := by
  unfold oddify; split <;> omega

theorem le_nextPrime (n : Nat) : n ≤ nextPrime n := by
  unfold nextPrime
  have := le_oddify n
  omega

/-- Every Fiat–Shamir challenge prime is at least 2^263: bit 263 is set
before the next-prime search, which never decreases its input. -/
theorem two_pow_263_le_fiatShamirL (D : Int) (x y : form) (t : Nat) :
    2 ^ 263 ≤ fiatShamirL D x y t := by
  unfold fiatShamirL
  refine le_trans ?_ (le_nextPrime _)
  set n := beRead (sha256 (challengeData D x y t)) ||| 2 ^ 263 with hn
  by_contra hlt
  have htb : n.testBit 263 = false := Nat.testBit_lt_two_pow (by omega)
  rw [hn, Nat.testBit_lor, Nat.testBit_two_pow_self, Bool.or_true] at htb
  simp at htb

theorem consuming_readBytes (n : Nat) : Consuming (readBytes n) := by
  intro l a r h
  unfold readBytes at h
  split at h
  case isTrue hle =>
    simp only [Option.some.injEq, Prod.mk.injEq] at h
    obtain ⟨ha, hr⟩ := h
    subst ha; subst hr
    refine ⟨n, by simp; omega, rfl, ?_⟩
    intro k
    constructor
    · intro hk
      unfold readBytes
      rw [if_neg (by simp; omega)]
    · intro hk
      unfold readBytes
      rw [if_pos (by simp; omega)]
      rw [List.take_take, Nat.min_eq_left hk, List.drop_take]
  case isFalse => exact absurd h (by simp)

theorem Consuming.done {α : Type} (v : α) :
    Consuming (fun l => some (v, l)) := by
  intro l a r h
  simp only [Option.some.injEq, Prod.mk.injEq] at h
  obtain ⟨rfl, rfl⟩ := h
  exact ⟨0, by simp, by simp, fun k => ⟨fun hk => absurd hk (by omega),
    fun _ => by simp⟩⟩

theorem Consuming.bind {α β : Type} {p : List Nat → Option (α × List Nat)}
    {q : α → List Nat → Option (β × List Nat)}
    (hp : Consuming p) (hq : ∀ a, Consuming (q a)) :
    Consuming (fun l => (p l).bind fun ar => q ar.1 ar.2) := by
  intro l b r h
  simp only [Option.bind_eq_some] at h
  obtain ⟨⟨a, r1⟩, hpl, hql⟩ := h
  obtain ⟨c1, hc1len, hc1r, hc1k⟩ := hp l a r1 hpl
  obtain ⟨c2, hc2len, hc2r, hc2k⟩ := hq a r1 b r hql
  refine ⟨c1 + c2, by omega, ?_, ?_⟩
  · rw [hc2r, hc1r, List.drop_drop]
  · intro k
    constructor
    · intro hk
      show (p (l.take k)).bind (fun ar => q ar.1 ar.2) = none
      rcases Nat.lt_or_ge k c1 with hk1 | hk1
      · rw [(hc1k k).1 hk1]
        rfl
      · rw [(hc1k k).2 hk1]
        show q a (r1.take (k - c1)) = none
        exact (hc2k (k - c1)).1 (by omega)
    · intro hk
      show (p (l.take k)).bind (fun ar => q ar.1 ar.2) = _
      rw [(hc1k k).2 (by omega)]
      show q a (r1.take (k - c1)) = _
      have := (hc2k (k - c1)).2 (by omega)
      rw [this, Nat.sub_sub]

theorem Consuming.guard {α : Type} (c : Prop) [Decidable c]
    {q : List Nat → Option (α × List Nat)} (hq : Consuming q) :
    Consuming (fun l => if c then q l else none) := by
  by_cases hc : c
  · simpa [hc] using hq
  · intro l a r h
    simp [hc] at h

theorem consuming_readInt2 : Consuming readInt2 := by
  unfold readInt2
  exact @Consuming.bind _ _ (readBytes 2)
    (fun s r => (readBytes (sz2 s) r).bind fun br => some (beRead br.1, br.2))
    (consuming_readBytes 2)
    (fun s => @Consuming.bind _ _ (readBytes (sz2 s))
      (fun b r => some (beRead b, r))
      (consuming_readBytes _)
      (fun b => Consuming.done (beRead b)))

theorem consuming_pDone (l a b c : Nat) : Consuming (pDone l a b c) := by
  unfold pDone
  exact Consuming.done _

theorem consuming_pAfterB (l a b : Nat) : Consuming (pAfterB l a b) := by
  unfold pAfterB
  exact @Consuming.bind _ _ readInt2 (pDone l a b) consuming_readInt2
    (fun c => consuming_pDone l a b c)

theorem consuming_pAfterA (l a : Nat) : Consuming (pAfterA l a) := by
  unfold pAfterA
  exact @Consuming.bind _ _ readInt2 (pAfterB l a) consuming_readInt2
    (fun b => consuming_pAfterB l a b)

theorem consuming_pAfterLBytes (lbs : List Nat) : Consuming (pAfterLBytes lbs) := by
  unfold pAfterLBytes
  exact @Consuming.bind _ _ readInt2 (pAfterA (beRead lbs)) consuming_readInt2
    (fun a => consuming_pAfterA (beRead lbs) a)

theorem consuming_pAfterLsize (ls : List Nat) : Consuming (pAfterLsize ls) := by
  unfold pAfterLsize
  exact @Consuming.bind _ _ (readBytes (byte1 ls)) pAfterLBytes
    (consuming_readBytes _) (fun lb => consuming_pAfterLBytes lb)

theorem consuming_pAfterIters (T : Nat) (tb : List Nat) :
    Consuming (pAfterIters T tb) := by
  unfold pAfterIters
  exact Consuming.guard (beRead tb = T)
    (@Consuming.bind _ _ (readBytes 1) pAfterLsize (consuming_readBytes 1)
      (fun lr => consuming_pAfterLsize lr))

theorem consuming_pAfterRecur (rl T : Nat) (rb : List Nat) :
    Consuming (pAfterRecur rl T rb) := by
  unfold pAfterRecur
  exact Consuming.guard (byte1 rb = rl)
    (@Consuming.bind _ _ (readBytes 8) (pAfterIters T) (consuming_readBytes 8)
      (fun tr => consuming_pAfterIters T tr))

theorem consuming_pAfterVersion (rl T : Nat) (v : List Nat) :
    Consuming (pAfterVersion rl T v) := by
  unfold pAfterVersion
  exact Consuming.guard (byte1 v = 2)
    (@Consuming.bind _ _ (readBytes 1) (pAfterRecur rl T) (consuming_readBytes 1)
      (fun rr => consuming_pAfterRecur rl T rr))

theorem consuming_parseProof (rl T : Nat) : Consuming (parseProof rl T) := by
  unfold parseProof
  exact @Consuming.bind _ _ (readBytes 1) (pAfterVersion rl T)
    (consuming_readBytes 1) (fun v => consuming_pAfterVersion rl T v)

/-- A blob whose parse consumes every byte cannot be truncated: parsing
any strict cut of it fails. -/
theorem parseProof_take_none (rl T : Nat) (blob : List Nat) (res : Nat × form)
    (h : parseProof rl T blob = some (res, [])) (k : Nat) (hk : k < blob.length) :
    parseProof rl T (blob.take k) = none := by
  obtain ⟨c, hclen, _, hck⟩ := consuming_parseProof rl T blob res [] h
  exact (hck k).1 (by simp at hclen; omega)

theorem readBytes_exact (n : Nat) (l1 l2 : List Nat) (h : l1.length = n) :
    readBytes n (l1 ++ l2) = some (l1, l2) := by
  unfold readBytes
  rw [if_pos (by simp [← h]), List.take_left' h, List.drop_left' h]

theorem byte1_single (b : Nat) : byte1 [b] = b := rfl

theorem sz2_pair (b0 b1 : Nat) : sz2 [b0, b1] = (b0 <<< 8) ||| b1 := rfl

theorem readInt2_serInt2 (v : Int) (rest : List Nat)
    (h : (beBytes v.natAbs).length < 65536) :
    readInt2 (serInt2 v ++ rest) = some (v.natAbs, rest) := by
  have hshape : serInt2 v ++ rest =
      [(beBytes v.natAbs).length >>> 8 &&& 255, (beBytes v.natAbs).length &&& 255]
        ++ (beBytes v.natAbs ++ rest) := by
    simp [serInt2]
  rw [hshape]
  unfold readInt2
  rw [readBytes_exact 2
    [(beBytes v.natAbs).length >>> 8 &&& 255, (beBytes v.natAbs).length &&& 255]
    (beBytes v.natAbs ++ rest) rfl, Option.some_bind]
  have hsz : sz2 [(beBytes v.natAbs).length >>> 8 &&& 255,
      (beBytes v.natAbs).length &&& 255] = (beBytes v.natAbs).length := by
    rw [sz2_pair, and255_eq_mod, and255_eq_mod,
      shiftLeft8_lor_eq_add _ _ (Nat.mod_lt _ (by norm_num)),
      Nat.shiftRight_eq_div_pow]
    norm_num
    omega
  rw [hsz, readBytes_exact _ _ _ rfl, Option.some_bind, beRead_beBytes]

/-- Parsing a freshly serialized version-0x02 blob: succeeds — returning
the challenge prime and the unsigned-magnitude form — exactly when the
claimed recursion level and iteration count match the serialized ones. -/
theorem parseProof_serializeProof (T rl l : Nat) (pf : form) (rl' T' : Nat)
    (hT : T < 2 ^ 64) (hl : (beBytes l).length < 256)
    (ha : (beBytes pf.a.natAbs).length < 65536)
    (hb : (beBytes pf.b.natAbs).length < 65536)
    (hc : (beBytes pf.c.natAbs).length < 65536) :
    parseProof rl' T' (serializeProof T rl l pf) =
      if rl' = rl ∧ T' = T then
        some ((l, ⟨(pf.a.natAbs : Int), (pf.b.natAbs : Int),
          (pf.c.natAbs : Int)⟩), ([] : List Nat))
      else none := by
  have hshape : serializeProof T rl l pf =
      [2] ++ ([rl] ++ (be8 T ++ ([(beBytes l).length &&& 255] ++
        (beBytes l ++ (serInt2 pf.a ++ (serInt2 pf.b ++ (serInt2 pf.c ++ [])))))))
      := by
    simp [serializeProof]
  rw [hshape]
  unfold parseProof
  rw [readBytes_exact 1 [2] _ rfl, Option.some_bind]
  unfold pAfterVersion
  rw [byte1_single, if_pos rfl]
  rw [readBytes_exact 1 [rl] _ rfl, Option.some_bind]
  unfold pAfterRecur
  rw [byte1_single]
  by_cases hrl : rl' = rl
  · subst hrl
    rw [if_pos rfl]
    rw [readBytes_exact 8 (be8 T) _ (be8_length T), Option.some_bind]
    unfold pAfterIters
    rw [beRead_be8 T hT]
    by_cases hT2 : T' = T
    · subst hT2
      rw [if_pos rfl]
      rw [readBytes_exact 1 [(beBytes l).length &&& 255] _ rfl, Option.some_bind]
      unfold pAfterLsize
      rw [byte1_single]
      have hlen : (beBytes l).length &&& 255 = (beBytes l).length := by
        rw [and255_eq_mod]; omega
      rw [hlen, readBytes_exact _ (beBytes l) _ rfl, Option.some_bind]
      unfold pAfterLBytes
      rw [readInt2_serInt2 pf.a _ ha, Option.some_bind]
      unfold pAfterA
      rw [readInt2_serInt2 pf.b _ hb, Option.some_bind]
      unfold pAfterB
      rw [readInt2_serInt2 pf.c _ hc, Option.some_bind]
      unfold pDone
      rw [beRead_beBytes]
      rw [if_pos ⟨rfl, rfl⟩]
    · rw [if_neg (fun hh => hT2 hh.symm), if_neg (by tauto)]
  · rw [if_neg (fun hh => hrl hh.symm), if_neg (by tauto)]

/-- The first nine bytes of a version-0x03 checkpoint blob: the version
byte and the 8-byte iteration count the generator was handed. -/
theorem checkpointBlob_take9 (ops : VdfOps) (s e : form) (it : Nat) (D : Int) :
    (generate_checkpoint_proof ops s e it D).serialized_proof.take 9 =
      3 :: be8 it := by
  show (3 :: (be8 it ++ _)).take 9 = 3 :: be8 it
  rw [List.take_succ_cons, List.take_left' (be8_length it)]

theorem pairwise_lt_range1 : ∀ s n : Nat, List.Pairwise (· < ·) (List.range' s n)
  | _, 0 => List.Pairwise.nil
  | s, n + 1 => by
    rw [List.range'_succ]
    refine List.Pairwise.cons ?_ (pairwise_lt_range1 (s + 1) n)
    intro x hx
    rw [List.mem_range'] at hx
    obtain ⟨i, _, rfl⟩ := hx
    omega

/-- In a strictly increasing list that contains its upper bound, the last
element is that bound. -/
theorem getLast?_of_sorted_max :
    ∀ (L : List Nat) (T : Nat), List.Pairwise (· < ·) L → T ∈ L →
      (∀ x ∈ L, x ≤ T) → L.getLast? = some T
  | [], T, _, hm, _ => absurd hm (List.not_mem_nil T)
  | [x], T, _, hm, _ => by
    simp at hm
    simp [hm]
  | x :: y :: L, T, hp, hm, hb => by
    rw [List.getLast?_cons_cons]
    rcases List.mem_cons.mp hm with h | hm'
    · exfalso
      have hy : x < y := (List.pairwise_cons.mp hp).1 y (by simp)
      have hyT : y ≤ T := hb y (by simp)
      omega
    · exact getLast?_of_sorted_max (y :: L) T (List.pairwise_cons.mp hp).2 hm'
        (fun z hz => hb z (List.mem_cons_of_mem x hz))

theorem workerAt_succ (ops : VdfOps) (D : Int) (f0 : form) (store : Bool)
    (k : Nat) (strm : Bool) (T t : Nat) :
    workerAt ops D f0 store k strm T (t + 1) =
      workerStep ops D store k strm T (workerAt ops D f0 store k strm T t)
        (t + 1) := by
  unfold workerAt
  rw [List.range'_1_concat, List.foldl_append, Nat.add_comm 1 t]
  rfl

/-- Invariant of a streaming worker run after `t` completed iterations:
the recorded iterations are the sentinel 0 followed by the checkpoint
boundaries in `[1, t]`; the last recorded iteration is the worker's
`last_checkpoint_iter`; and each record's blob opens with the version
byte and the 8-byte distance to the previous record. -/
theorem workerAt_stream_inv (ops : VdfOps) (D : Int) (f0 : form) (k T : Nat)
    (hk : 0 < k) (hT : 0 < T) :
    ∀ t, t ≤ T →
      ((workerAt ops D f0 true k true T t).checkpoint_proofs.map
          (fun cp => cp.iteration) =
        0 :: (List.range' 1 t).filter (fun i => decide (i % k = 0 ∨ i = T)))
      ∧ ((workerAt ops D f0 true k true T t).checkpoint_proofs.map
          (fun cp => cp.iteration)).getLast? =
          some (workerAt ops D f0 true k true T t).last_checkpoint_iter
      ∧ List.Chain' (fun r s => s.serialized_proof.take 9 =
          3 :: be8 (s.iteration - r.iteration))
          (workerAt ops D f0 true k true T t).checkpoint_proofs := by
  intro t
  induction t with
  | zero =>
    intro _
    unfold workerAt workerInit
    rw [if_pos ⟨rfl, hT, rfl⟩]
    refine ⟨by simp, by simp, by simp⟩
  | succ t ih =>
    intro ht
    obtain ⟨ih1, ih2, ih3⟩ := ih (by omega)
    rw [workerAt_succ]
    unfold workerStep
    by_cases hcond : (t + 1) % k = 0 ∨ t + 1 = T
    · rw [if_pos ⟨rfl, hk, hcond⟩, if_pos rfl]
      refine ⟨?_, ?_, ?_⟩
      · simp only [List.map_append, List.map_cons, List.map_nil, ih1]
        rw [List.range'_1_concat, List.filter_append, Nat.add_comm 1 t]
        have hfil : List.filter (fun i => decide (i % k = 0 ∨ i = T)) [t + 1]
            = [t + 1] := by
          simp [hcond]
        rw [hfil]
        simp
      · simp [List.getLast?_concat]
      · apply List.Chain'.append ih3 (by simp)
        intro x hx y hy
        simp only [List.head?_cons, Option.mem_def, Option.some.injEq] at hy
        subst hy
        have hxlast : x.iteration =
            (workerAt ops D f0 true k true T t).last_checkpoint_iter := by
          rw [Option.mem_def] at hx
          rw [List.getLast?_map, hx] at ih2
          simpa using ih2
        show List.take 9 (CheckpointProof.mk _ _ _ _ _).serialized_proof = _
        simp only []
        rw [checkpointBlob_take9, hxlast]
    · have hnot : ¬(true = true ∧ 0 < k ∧ ((t + 1) % k = 0 ∨ t + 1 = T)) := by
        intro hcon
        exact hcond hcon.2.2
      rw [if_neg hnot]
      refine ⟨?_, ih2, ih3⟩
      rw [ih1, List.range'_1_concat, List.filter_append, Nat.add_comm 1 t]
      have hfil : List.filter (fun i => decide (i % k = 0 ∨ i = T)) [t + 1]
          = [] := by
        simp [hcond]
      rw [hfil]
      simp

/-- Characterization of a non-streaming worker run: no sentinel record is
stored, and the recorded iterations are exactly the checkpoint
boundaries in `[1, t]`. -/
theorem workerAt_plain_inv (ops : VdfOps) (D : Int) (f0 : form) (k T : Nat)
    (hk : 0 < k) :
    ∀ t,
      (workerAt ops D f0 true k false T t).checkpoint_proofs.map
          (fun cp => cp.iteration) =
        (List.range' 1 t).filter (fun i => decide (i % k = 0 ∨ i = T)) := by
  intro t
  induction t with
  | zero =>
    unfold workerAt workerInit
    rw [if_neg (by simp)]
    simp
  | succ t ih =>
    rw [workerAt_succ]
    unfold workerStep
    by_cases hcond : (t + 1) % k = 0 ∨ t + 1 = T
    · rw [if_pos ⟨rfl, hk, hcond⟩, if_neg (by simp)]
      simp only [List.map_append, List.map_cons, List.map_nil, ih]
      rw [List.range'_1_concat, List.filter_append, Nat.add_comm 1 t]
      have hfil : List.filter (fun i => decide (i % k = 0 ∨ i = T)) [t + 1]
          = [t + 1] := by
        simp [hcond]
      rw [hfil]
    · have hnot : ¬(true = true ∧ 0 < k ∧ ((t + 1) % k = 0 ∨ t + 1 = T)) := by
        intro hcon
        exact hcond hcon.2.2
      rw [if_neg hnot]
      show List.map _ (workerAt ops D f0 true k false T t).checkpoint_proofs = _
      rw [ih, List.range'_1_concat, List.filter_append, Nat.add_comm 1 t]
      have hfil : List.filter (fun i => decide (i % k = 0 ∨ i = T)) [t + 1]
          = [] := by
        simp [hcond]
      rw [hfil]
      simp

/-- The import adjustment always produces a strictly negative value that
is ≡ 1 (mod 4), and it coincides with the spec's wording of the
adjustment (the two differ only at an adjusted value of exactly zero,
which no input reaches). -/
theorem adjustedDiscriminant_spec (m : Nat) :
    adjustedDiscriminant m < 0 ∧ adjustedDiscriminant m % 4 = 1 ∧
      adjustedDiscriminant m = specAdjustedDisc (-(m : Int)) := by
  have hm : (0 : Int) ≤ (m : Int) := Int.natCast_nonneg m
  simp only [adjustedDiscriminant, specAdjustedDisc]
  split_ifs <;> omega

theorem importDiscriminant_ok (m : Nat) :
    importDiscriminant m = Except.ok (adjustedDiscriminant m) := by
  unfold importDiscriminant
  rw [if_pos (adjustedDiscriminant_spec m).1]

/-- The verifier reports failure whenever the parsing phase fails. -/
theorem verify_false_of_parse_none (ops : VdfOps) (db : List Nat)
    (ifb : Option (List Nat)) (blob : List Nat) (T rl : Nat)
    (h : parseProof rl T blob = none) :
    cpu_vdf_verify_proof ops db ifb blob T rl = false := by
  unfold cpu_vdf_verify_proof
  rcases Nat.lt_or_ge blob.length 10 with h10 | h10
  · rw [if_pos h10]
  · rw [if_neg (by omega), h]

/-- A blob whose first byte is not the version 0x02 never parses. -/
theorem parseProof_version_ne (rl T : Nat) (blob : List Nat)
    (h : blob.head? ≠ some 2) : parseProof rl T blob = none := by
  cases blob with
  | nil => rfl
  | cons v rest =>
    have hv : v ≠ 2 := by simpa using h
    unfold parseProof
    rw [show (v :: rest) = [v] ++ rest from rfl,
      readBytes_exact 1 [v] rest rfl, Option.some_bind]
    unfold pAfterVersion
    rw [byte1_single, if_neg hv]

theorem mem_filter_range1 {p : Nat → Bool} {T x : Nat}
    (hx : x ∈ (List.range' 1 T).filter p) : 1 ≤ x ∧ x ≤ T := by
  have hm := List.mem_of_mem_filter hx
  rw [List.mem_range'] at hm
  obtain ⟨i, hi, rfl⟩ := hm
  omega

theorem mem_T_filter_boundary (k T : Nat) (hT : 0 < T) :
    T ∈ (List.range' 1 T).filter (fun i => decide (i % k = 0 ∨ i = T)) := by
  rw [List.mem_filter]
  constructor
  · rw [List.mem_range']
    exact ⟨T - 1, by omega, by omega⟩
  · simp

/-- Retrieving the full iteration range with enough capacity returns the
stored checkpoint list unchanged. -/
theorem getCheckpointProofs_full (cps : List CheckpointProof) (T : Nat)
    (hall : ∀ cp ∈ cps, cp.iteration ≤ T) :
    cpu_vdf_get_checkpoint_proofs cps 0 T cps.length = cps := by
  unfold cpu_vdf_get_checkpoint_proofs
  rw [List.filter_eq_self.mpr (fun cp hcp => by simp [hall cp hcp]),
    List.take_length]

/-- C10: cpu_vdf_get_status sets `has_proof_ready` to false for every
context and every elapsed time — in particular in the Completed state,
when cpu_vdf_generate_proof would succeed; no call sequence can make it
report true. -/
theorem c10_has_proof_ready_false :
    ∀ (ctx : VdfCtx) (elapsed : Nat),
      (cpu_vdf_get_status ctx elapsed).has_proof_ready = false := by
  intro ctx elapsed
  rfl

/-- C9: cpu_vdf_generate_proof_for_iterations uses its target only for
the `target ≤ T` validity check: on a Completed context, for any two
admissible targets it returns exactly the proof of the full run. -/
theorem c9_target_iterations_ignored :
    ∀ (ops : VdfOps) (ctx : VdfCtx) (t1 t2 rl : Nat),
      ctx.state = VdfState.completed →
      t1 ≤ ctx.target_iterations →
      t2 ≤ ctx.target_iterations →
      cpu_vdf_generate_proof_for_iterations ops ctx t1 rl =
        cpu_vdf_generate_proof ops ctx rl ∧
      cpu_vdf_generate_proof_for_iterations ops ctx t1 rl =
        cpu_vdf_generate_proof_for_iterations ops ctx t2 rl := by
  intro ops ctx t1 t2 rl hst h1 h2
  unfold cpu_vdf_generate_proof_for_iterations
  rw [if_neg (by omega), if_neg (by omega)]
  exact ⟨rfl, rfl⟩

theorem c9_target_iterations_ignored_witness :
    (⟨VdfState.completed, 5, -7, ⟨1, 1, 2⟩, ⟨1, 1, 2⟩, 5, 0⟩ : VdfCtx).state
        = VdfState.completed ∧
    1 ≤ (⟨VdfState.completed, 5, -7, ⟨1, 1, 2⟩, ⟨1, 1, 2⟩, 5, 0⟩ :
        VdfCtx).target_iterations ∧
    2 ≤ (⟨VdfState.completed, 5, -7, ⟨1, 1, 2⟩, ⟨1, 1, 2⟩, 5, 0⟩ :
        VdfCtx).target_iterations ∧
    (cpu_vdf_generate_proof_for_iterations trivOps
        ⟨VdfState.completed, 5, -7, ⟨1, 1, 2⟩, ⟨1, 1, 2⟩, 5, 0⟩ 1 0 =
      cpu_vdf_generate_proof trivOps
        ⟨VdfState.completed, 5, -7, ⟨1, 1, 2⟩, ⟨1, 1, 2⟩, 5, 0⟩ 0 ∧
     cpu_vdf_generate_proof_for_iterations trivOps
        ⟨VdfState.completed, 5, -7, ⟨1, 1, 2⟩, ⟨1, 1, 2⟩, 5, 0⟩ 1 0 =
      cpu_vdf_generate_proof_for_iterations trivOps
        ⟨VdfState.completed, 5, -7, ⟨1, 1, 2⟩, ⟨1, 1, 2⟩, 5, 0⟩ 2 0) :=
  ⟨rfl, by decide, by decide,
    c9_target_iterations_ignored trivOps
      ⟨VdfState.completed, 5, -7, ⟨1, 1, 2⟩, ⟨1, 1, 2⟩, 5, 0⟩ 1 2 0 rfl
      (by decide) (by decide)⟩

/-- C3: the engine ignores a provided initial form.  Both branches of the
setup in cpu_vdf_start_computation install the generator, the verifier
does the same, and verification is therefore independent of the provided
initial-form bytes.  (The specification requires a provided form to be
validated and used.) -/
theorem c3_initial_form_ignored :
    ∀ (D : Int) (bytes : List Nat),
      startInitialForm D (some bytes) = generator D ∧
      startInitialForm D none = generator D ∧
      verifyInitialForm D (some bytes) = generator D ∧
      ∀ (ops : VdfOps) (db blob : List Nat) (T rl : Nat)
        (b1 b2 : Option (List Nat)),
        cpu_vdf_verify_proof ops db b1 blob T rl =
          cpu_vdf_verify_proof ops db b2 blob T rl := by
  intro D bytes
  refine ⟨rfl, rfl, rfl, ?_⟩
  intro ops db blob T rl b1 b2
  unfold cpu_vdf_verify_proof
  have h : ∀ b : Option (List Nat),
      verifyInitialForm (-(beRead db : Int)) b = generator (-(beRead db : Int)) := by
    intro b
    cases b <;> rfl
  simp only [h]

/-- C6: importing a discriminant magnitude negates it; when the result is
not ≡ 1 (mod 4) it is adjusted by subtracting (D mod 4) and adding 1,
then by 4 more toward negative if needed (matching the spec's wording on
every reachable value); the adjusted discriminant always satisfies D < 0
and D ≡ 1 (mod 4), and the InvalidDiscriminant rejection fires exactly
when the result fails to be strictly negative. -/
theorem c6_discriminant_import :
    ∀ m : Nat,
      importDiscriminant m = Except.ok (adjustedDiscriminant m) ∧
      adjustedDiscriminant m = specAdjustedDisc (-(m : Int)) ∧
      adjustedDiscriminant m < 0 ∧
      adjustedDiscriminant m % 4 = 1 ∧
      (¬ adjustedDiscriminant m < 0 →
        importDiscriminant m = Except.error VdfError.invalidDiscriminant) := by
  intro m
  obtain ⟨h1, h2, h3⟩ := adjustedDiscriminant_spec m
  exact ⟨importDiscriminant_ok m, h3, h1, h2, fun hge => absurd h1 hge⟩

/-- C4: the proof blob layout.  A generated blob is exactly version 0x02,
the recursion byte, 8-byte big-endian T, a 1-byte length for l followed
by its magnitude, then the three coefficients of π with 2-byte length
prefixes; the verifier parses exactly this layout, and rejects a wrong
version byte, a recursion byte differing from the claimed level, or an
encoded T differing from the claimed iterations. -/
theorem c4_proof_blob_layout :
    ∀ (T rl l : Nat) (pf : form),
      T < 2 ^ 64 →
      (beBytes l).length < 256 →
      (beBytes pf.a.natAbs).length < 65536 →
      (beBytes pf.b.natAbs).length < 65536 →
      (beBytes pf.c.natAbs).length < 65536 →
      (serializeProof T rl l pf = 2 :: rl :: (be8 T ++
          ((beBytes l).length &&& 255) :: (beBytes l ++
            (serInt2 pf.a ++ (serInt2 pf.b ++ serInt2 pf.c))))) ∧
      (serializeProof T rl l pf).get? 0 = some 2 ∧
      (serializeProof T rl l pf).get? 1 = some rl ∧
      ((serializeProof T rl l pf).drop 2).take 8 = be8 T ∧
      (serializeProof T rl l pf).get? 10 = some (beBytes l).length ∧
      parseProof rl T (serializeProof T rl l pf) =
        some ((l, ⟨(pf.a.natAbs : Int), (pf.b.natAbs : Int),
          (pf.c.natAbs : Int)⟩), []) ∧
      (∀ rl' T', ¬(rl' = rl ∧ T' = T) →
        parseProof rl' T' (serializeProof T rl l pf) = none ∧
        ∀ (ops : VdfOps) (db : List Nat) (ifb : Option (List Nat)),
          cpu_vdf_verify_proof ops db ifb (serializeProof T rl l pf) T' rl'
            = false) ∧
      (∀ (ops : VdfOps) (db : List Nat) (ifb : Option (List Nat))
        (blob : List Nat) (T2 rl2 : Nat), blob.head? ≠ some 2 →
          cpu_vdf_verify_proof ops db ifb blob T2 rl2 = false) := by
  intro T rl l pf hT hl ha hb hc
  refine ⟨by simp [serializeProof], rfl, rfl, ?_, ?_, ?_, ?_, ?_⟩
  · show (be8 T ++ _).take 8 = be8 T
    exact List.take_left' (be8_length T)
  · show (2 :: rl :: (be8 T ++ (((beBytes l).length &&& 255) :: _))).get? 10
      = some (beBytes l).length
    rw [List.get?_cons_succ, List.get?_cons_succ,
      List.get?_append_right (by rw [be8_length])]
    rw [be8_length]
    show some ((beBytes l).length &&& 255) = some (beBytes l).length
    rw [and255_eq_mod]
    congr 1
    omega
  · rw [parseProof_serializeProof T rl l pf rl T hT hl ha hb hc,
      if_pos ⟨rfl, rfl⟩]
  · intro rl' T' hne
    have hnone : parseProof rl' T' (serializeProof T rl l pf) = none := by
      rw [parseProof_serializeProof T rl l pf rl' T' hT hl ha hb hc,
        if_neg hne]
    exact ⟨hnone, fun ops db ifb =>
      verify_false_of_parse_none ops db ifb _ T' rl' hnone⟩
  · intro ops db ifb blob T2 rl2 hhead
    exact verify_false_of_parse_none ops db ifb blob T2 rl2
      (parseProof_version_ne rl2 T2 blob hhead)

theorem c4_proof_blob_layout_witness :
    (1 : Nat) < 2 ^ 64 ∧
    (beBytes 5).length < 256 ∧
    (beBytes (⟨1, 1, 2⟩ : form).a.natAbs).length < 65536 ∧
    (beBytes (⟨1, 1, 2⟩ : form).b.natAbs).length < 65536 ∧
    (beBytes (⟨1, 1, 2⟩ : form).c.natAbs).length < 65536 ∧
    parseProof 0 1 (serializeProof 1 0 5 ⟨1, 1, 2⟩) =
      some ((5, ⟨((⟨1, 1, 2⟩ : form).a.natAbs : Int),
        ((⟨1, 1, 2⟩ : form).b.natAbs : Int),
        ((⟨1, 1, 2⟩ : form).c.natAbs : Int)⟩), []) :=
  ⟨by decide, by decide, by decide, by decide, by decide,
    (c4_proof_blob_layout 1 0 5 ⟨1, 1, 2⟩ (by decide) (by decide) (by decide)
      (by decide) (by decide)).2.2.2.2.2.1⟩

/-- C8: proof serialization keeps only unsigned magnitudes: the form the
verifier's parser reconstructs from a serialized proof is
(|a|, |b|, |c|), so for a proof form with a negative b the parsed form
differs from the original — serialization followed by deserialization is
not the identity there. -/
theorem c8_magnitude_serialization :
    ∀ (T rl l : Nat) (pf : form),
      T < 2 ^ 64 →
      (beBytes l).length < 256 →
      (beBytes pf.a.natAbs).length < 65536 →
      (beBytes pf.b.natAbs).length < 65536 →
      (beBytes pf.c.natAbs).length < 65536 →
      parseProof rl T (serializeProof T rl l pf) =
        some ((l, ⟨(pf.a.natAbs : Int), (pf.b.natAbs : Int),
          (pf.c.natAbs : Int)⟩), []) ∧
      (pf.b < 0 →
        (⟨(pf.a.natAbs : Int), (pf.b.natAbs : Int), (pf.c.natAbs : Int)⟩ : form)
          ≠ pf) := by
  intro T rl l pf hT hl ha hb hc
  constructor
  · rw [parseProof_serializeProof T rl l pf rl T hT hl ha hb hc,
      if_pos ⟨rfl, rfl⟩]
  · intro hbneg hcontra
    have hb2 : ((pf.b.natAbs : Int)) = pf.b := congrArg form.b hcontra
    omega

theorem c8_magnitude_serialization_witness :
    (1 : Nat) < 2 ^ 64 ∧
    (beBytes 5).length < 256 ∧
    (beBytes (⟨2, -3, 4⟩ : form).a.natAbs).length < 65536 ∧
    (beBytes (⟨2, -3, 4⟩ : form).b.natAbs).length < 65536 ∧
    (beBytes (⟨2, -3, 4⟩ : form).c.natAbs).length < 65536 ∧
    (parseProof 0 1 (serializeProof 1 0 5 ⟨2, -3, 4⟩) =
      some ((5, ⟨((⟨2, -3, 4⟩ : form).a.natAbs : Int),
        ((⟨2, -3, 4⟩ : form).b.natAbs : Int),
        ((⟨2, -3, 4⟩ : form).c.natAbs : Int)⟩), []) ∧
     ((⟨2, -3, 4⟩ : form).b < 0 →
       (⟨((⟨2, -3, 4⟩ : form).a.natAbs : Int),
         ((⟨2, -3, 4⟩ : form).b.natAbs : Int),
         ((⟨2, -3, 4⟩ : form).c.natAbs : Int)⟩ : form) ≠ ⟨2, -3, 4⟩)) :=
  ⟨by decide, by decide, by decide, by decide, by decide,
    c8_magnitude_serialization 1 0 5 ⟨2, -3, 4⟩ (by decide) (by decide)
      (by decide) (by decide) (by decide)⟩

/-- C7: malformed or truncated blobs are rejected without reaching the
verification equation: blobs shorter than the 10-byte header and blobs
whose parse fails yield false, and parsing any strict cut of a blob that
parses completely fails — parsing never produces a partial result. -/
theorem c7_malformed_rejected :
    (∀ (ops : VdfOps) (db : List Nat) (ifb : Option (List Nat))
      (blob : List Nat) (T rl : Nat), blob.length < 10 →
        cpu_vdf_verify_proof ops db ifb blob T rl = false) ∧
    (∀ (ops : VdfOps) (db : List Nat) (ifb : Option (List Nat))
      (blob : List Nat) (T rl : Nat), parseProof rl T blob = none →
        cpu_vdf_verify_proof ops db ifb blob T rl = false) ∧
    (∀ (rl T : Nat) (blob : List Nat) (res : Nat × form),
      parseProof rl T blob = some (res, []) →
      ∀ k, k < blob.length →
        parseProof rl T (blob.take k) = none ∧
        ∀ (ops : VdfOps) (db : List Nat) (ifb : Option (List Nat)),
          cpu_vdf_verify_proof ops db ifb (blob.take k) T rl = false) := by
  refine ⟨?_, ?_, ?_⟩
  · intro ops db ifb blob T rl h10
    unfold cpu_vdf_verify_proof
    rw [if_pos h10]
  · exact verify_false_of_parse_none
  · intro rl T blob res hfull k hk
    have hnone := parseProof_take_none rl T blob res hfull k hk
    exact ⟨hnone, fun ops db ifb =>
      verify_false_of_parse_none ops db ifb _ T rl hnone⟩

theorem c7_malformed_rejected_witness :
    parseProof 0 1 (serializeProof 1 0 5 ⟨1, 1, 2⟩) =
      some ((5, ⟨1, 1, 2⟩), []) ∧
    (20 : Nat) < (serializeProof 1 0 5 ⟨1, 1, 2⟩).length ∧
    parseProof 0 1 ((serializeProof 1 0 5 ⟨1, 1, 2⟩).take 20) = none :=
  ⟨by decide, by decide,
    (c7_malformed_rejected.2.2 0 1 (serializeProof 1 0 5 ⟨1, 1, 2⟩)
      (5, ⟨1, 1, 2⟩) (by decide) 20 (by decide)).1⟩

/-- C1 (amended): the challenge prime entering the Wesolowski equation is
the one parsed out of the proof blob — the verifier performs no
Fiat–Shamir recomputation.  In particular a blob may carry any prime-field
value, while the Fiat–Shamir derivation can only produce values of at
least 2^263. -/
theorem c1_verifier_uses_blob_prime :
    (∀ (ops : VdfOps) (db : List Nat) (ifb : Option (List Nat))
      (blob : List Nat) (T rl l : Nat) (pf : form) (rest : List Nat),
        10 ≤ blob.length →
        parseProof rl T blob = some ((l, pf), rest) →
        cpu_vdf_verify_proof ops db ifb blob T rl =
          wesolowskiCheck ops (-(beRead db : Int))
            (generator (-(beRead db : Int))) T l pf) ∧
    (∀ (D : Int) (x y : form) (t : Nat), 2 ^ 263 ≤ fiatShamirL D x y t) := by
  constructor
  · intro ops db ifb blob T rl l pf rest h10 hparse
    unfold cpu_vdf_verify_proof
    rw [if_neg (by omega), hparse]
    show wesolowskiCheck ops _ (verifyInitialForm _ ifb) T l pf = _
    have hv : verifyInitialForm (-(beRead db : Int)) ifb
        = generator (-(beRead db : Int)) := by
      cases ifb <;> rfl
    rw [hv]
  · exact two_pow_263_le_fiatShamirL

theorem c1_verifier_uses_blob_prime_witness :
    (10 : Nat) ≤ (serializeProof 1 0 5 ⟨1, 1, 2⟩).length ∧
    parseProof 0 1 (serializeProof 1 0 5 ⟨1, 1, 2⟩) =
      some ((5, ⟨1, 1, 2⟩), []) ∧
    cpu_vdf_verify_proof trivOps [7] none (serializeProof 1 0 5 ⟨1, 1, 2⟩) 1 0 =
      wesolowskiCheck trivOps (-(beRead [7] : Int))
        (generator (-(beRead [7] : Int))) 1 5 ⟨1, 1, 2⟩ :=
  ⟨by decide, by decide,
    c1_verifier_uses_blob_prime.1 trivOps [7] none
      (serializeProof 1 0 5 ⟨1, 1, 2⟩) 1 0 5 ⟨1, 1, 2⟩ [] (by decide)
      (by decide)⟩

/-- C1 (counterexample): a concrete blob storing the challenge prime 5
parses successfully with l = 5, yet the Fiat–Shamir derivation on the
(D, x, y, T) of that verification — D = −7, x the generator, y the
verifier's recomputed power, T = 1 — can never equal 5, since every
derived prime is at least 2^263.  The l entering the equation is
therefore not the recomputed Fiat–Shamir prime. -/
theorem c1_counterexample :
    parseProof 0 1 (serializeProof 1 0 5 ⟨1, 1, 2⟩) =
      some ((5, ⟨1, 1, 2⟩), []) ∧
    (5 : Nat) ≠ fiatShamirL (-(beRead [7] : Int))
      (generator (-(beRead [7] : Int)))
      (trivOps.square^[1] (generator (-(beRead [7] : Int)))) 1 := by
  constructor
  · decide
  · intro h
    have := two_pow_263_le_fiatShamirL (-(beRead [7] : Int))
      (generator (-(beRead [7] : Int)))
      (trivOps.square^[1] (generator (-(beRead [7] : Int)))) 1
    rw [← h] at this
    omega

/-- C2 (amended): in a streaming run, every version-0x03 checkpoint blob
encodes at offset 1 the 8-byte big-endian SEGMENT length — the distance
from the previous record's iteration to this record's — not the absolute
iteration. -/
theorem c2_blob_encodes_segment_length :
    ∀ (ops : VdfOps) (challenge : List Nat) (bits seg T : Nat),
      0 < seg → 0 < T →
      List.Chain' (fun r s => s.serialized_proof.take 9 =
          3 :: be8 (s.iteration - r.iteration))
        (startComputationCheckpoints ops challenge bits seg T) := by
  intro ops challenge bits seg T hseg hT
  simp only [startComputationCheckpoints, decide_eq_true hseg]
  have hk : checkpointInterval true seg T = seg := by
    unfold checkpointInterval
    rw [if_pos ⟨rfl, hT⟩, if_pos hseg]
  rw [hk]
  exact (workerAt_stream_inv ops _ (generator _) seg T hseg hT T le_rfl).2.2

theorem c2_blob_encodes_segment_length_witness :
    (0 : Nat) < 1 ∧ (0 : Nat) < 2 ∧
    List.Chain' (fun r s => s.serialized_proof.take 9 =
        3 :: be8 (s.iteration - r.iteration))
      (startComputationCheckpoints trivOps [1, 2, 3, 4] 512 1 2) :=
  ⟨by decide, by decide,
    c2_blob_encodes_segment_length trivOps [1, 2, 3, 4] 512 1 2 (by decide)
      (by decide)⟩

/-- C2 (counterexample): in the streaming run with segment size 1 and
T = 2, the record at absolute iteration 2 carries a blob whose bytes at
offset 1 encode 1 — the segment length — and not its absolute
iteration 2. -/
theorem c2_counterexample :
    ((startComputationCheckpoints trivOps [1, 2, 3, 4] 512 1 2).get? 2).map
        (fun cp => (cp.iteration, cp.serialized_proof.take 9)) =
      some (2, 3 :: be8 1) ∧
    3 :: be8 1 ≠ 3 :: be8 2 := by
  exact ⟨rfl, by decide⟩

/-- C5 (amended): for a completed run with checkpoints enabled, the list
returned by cpu_vdf_get_checkpoint_proofs over the full range is the
stored list; it is strictly increasing in iteration number and ends at T
on both start paths; but only cpu_vdf_start_computation records the
sentinel, so only there does the first record have iteration 0 — a fresh
run via cpu_vdf_start_computation_with_discriminant has no streaming
proofs enabled, stores no sentinel, and every recorded iteration is
positive. -/
theorem c5_checkpoint_monotonicity :
    ∀ (ops : VdfOps) (challenge : List Nat) (bits m seg T : Nat),
      0 < seg → 0 < T →
      (cpu_vdf_get_checkpoint_proofs
          (startComputationCheckpoints ops challenge bits seg T) 0 T
          (startComputationCheckpoints ops challenge bits seg T).length =
        startComputationCheckpoints ops challenge bits seg T ∧
       List.Pairwise (fun r s => r.iteration < s.iteration)
         (startComputationCheckpoints ops challenge bits seg T) ∧
       ((startComputationCheckpoints ops challenge bits seg T).map
           (fun cp => cp.iteration)).head? = some 0 ∧
       ((startComputationCheckpoints ops challenge bits seg T).map
           (fun cp => cp.iteration)).getLast? = some T) ∧
      (∀ recs, startWithDiscCheckpoints ops m seg T = some recs →
        cpu_vdf_get_checkpoint_proofs recs 0 T recs.length = recs ∧
        List.Pairwise (fun r s => r.iteration < s.iteration) recs ∧
        (∀ cp ∈ recs, 0 < cp.iteration) ∧
        (recs.map (fun cp => cp.iteration)).getLast? = some T) := by
  intro ops challenge bits m seg T hseg hT
  have hk : checkpointInterval true seg T = seg := by
    unfold checkpointInterval
    rw [if_pos ⟨rfl, hT⟩, if_pos hseg]
  constructor
  · have hrecs : startComputationCheckpoints ops challenge bits seg T =
        (workerAt ops (ops.genDisc bits (seedOfChallenge challenge))
          (generator (ops.genDisc bits (seedOfChallenge challenge))) true seg
          true T T).checkpoint_proofs := by
      simp only [startComputationCheckpoints, decide_eq_true hseg, hk]
    have hmap := (workerAt_stream_inv ops
      (ops.genDisc bits (seedOfChallenge challenge))
      (generator (ops.genDisc bits (seedOfChallenge challenge))) seg T hseg hT
      T le_rfl).1
    rw [hrecs]
    set recs := (workerAt ops (ops.genDisc bits (seedOfChallenge challenge))
      (generator (ops.genDisc bits (seedOfChallenge challenge))) true seg
      true T T).checkpoint_proofs with hrdef
    have hpw : List.Pairwise (· < ·) (recs.map (fun cp => cp.iteration)) := by
      rw [hmap]
      refine List.Pairwise.cons ?_
        (List.Pairwise.sublist (List.filter_sublist _) (pairwise_lt_range1 1 T))
      intro x hx
      exact (mem_filter_range1 hx).1
    have hbound : ∀ x ∈ recs.map (fun cp => cp.iteration), x ≤ T := by
      rw [hmap]
      intro x hx
      rcases List.mem_cons.mp hx with rfl | hx'
      · omega
      · exact (mem_filter_range1 hx').2
    refine ⟨?_, ?_, ?_, ?_⟩
    · refine getCheckpointProofs_full recs T ?_
      intro cp hcp
      exact hbound _ (List.mem_map_of_mem _ hcp)
    · exact List.pairwise_map.mp hpw
    · rw [hmap]
      rfl
    · refine getLast?_of_sorted_max _ T hpw ?_ hbound
      rw [hmap]
      exact List.mem_cons_of_mem 0 (mem_T_filter_boundary seg T hT)
  · intro recs hgot
    have hgot2 : some ((workerAt ops (adjustedDiscriminant m)
        (generator (adjustedDiscriminant m)) (decide (0 < seg))
        (checkpointInterval (decide (0 < seg)) seg T) false T
        T).checkpoint_proofs) = some recs := by
      rw [← hgot]
      unfold startWithDiscCheckpoints
      rw [importDiscriminant_ok m]
    rw [decide_eq_true hseg, hk] at hgot2
    obtain rfl := (Option.some.inj hgot2).symm
    have hmap := workerAt_plain_inv ops (adjustedDiscriminant m)
      (generator (adjustedDiscriminant m)) seg T hseg T
    set recs := (workerAt ops (adjustedDiscriminant m)
      (generator (adjustedDiscriminant m)) true seg false T
      T).checkpoint_proofs with hrdef
    have hpw : List.Pairwise (· < ·) (recs.map (fun cp => cp.iteration)) := by
      rw [hmap]
      exact List.Pairwise.sublist (List.filter_sublist _) (pairwise_lt_range1 1 T)
    have hbound : ∀ x ∈ recs.map (fun cp => cp.iteration), x ≤ T := by
      rw [hmap]
      intro x hx
      exact (mem_filter_range1 hx).2
    refine ⟨?_, ?_, ?_, ?_⟩
    · refine getCheckpointProofs_full recs T ?_
      intro cp hcp
      exact hbound _ (List.mem_map_of_mem _ hcp)
    · exact List.pairwise_map.mp hpw
    · intro cp hcp
      have : cp.iteration ∈ recs.map (fun cp => cp.iteration) :=
        List.mem_map_of_mem _ hcp
      rw [hmap] at this
      exact (mem_filter_range1 this).1
    · refine getLast?_of_sorted_max _ T hpw ?_ hbound
      rw [hmap]
      exact mem_T_filter_boundary seg T hT

theorem c5_checkpoint_monotonicity_witness :
    (0 : Nat) < 1 ∧ (0 : Nat) < 2 ∧
    (cpu_vdf_get_checkpoint_proofs
        (startComputationCheckpoints trivOps [1, 2, 3, 4] 512 1 2) 0 2
        (startComputationCheckpoints trivOps [1, 2, 3, 4] 512 1 2).length =
      startComputationCheckpoints trivOps [1, 2, 3, 4] 512 1 2 ∧
      List.Pairwise (fun r s => r.iteration < s.iteration)
        (startComputationCheckpoints trivOps [1, 2, 3, 4] 512 1 2) ∧
      ((startComputationCheckpoints trivOps [1, 2, 3, 4] 512 1 2).map
          (fun cp => cp.iteration)).head? = some 0 ∧
      ((startComputationCheckpoints trivOps [1, 2, 3, 4] 512 1 2).map
          (fun cp => cp.iteration)).getLast? = some 2) :=
  ⟨by decide, by decide,
    (c5_checkpoint_monotonicity trivOps [1, 2, 3, 4] 512 7 1 2 (by decide)
      (by decide)).1⟩

/-- C5 (counterexample): a fresh run via
cpu_vdf_start_computation_with_discriminant with |D| = 7, segment size 1
and T = 2 stores no sentinel: its first recorded iteration is 1, not 0. -/
theorem c5_counterexample :
    (startWithDiscCheckpoints trivOps 7 1 2).map
        (fun recs => (recs.map (fun cp => cp.iteration)).head?) =
      some (some 1) ∧
    some (some (1 : Nat)) ≠ some (some (0 : Nat)) := by
  exact ⟨by decide, by decide⟩
